import Mathlib

/-!
Verification of the streaming core of the agpt.go chat backend.

The development shallowly embeds three components of the repository:

* the Part Encoder (`StreamWriter` in `internal/streaming`): `WriteStart`,
  `WriteText`, `WriteToolCall`, `WriteToolCallStart`, `WriteToolCallArgDelta`,
  `WriteToolResult`, `WriteFinishStep`, `WriteFinishMessage`,
  `WriteAnnotation`, `writePart`, `writeRaw`;
* the Delta Accumulator (`LLMService.ChatStreamWithTools` in
  `internal/services`), which folds the provider's raw streamed events into
  normalized `StreamChunk` values;
* the Stream Orchestrator (the streaming body of
  `ChatHandler.SendMessageStream` in `internal/handlers/chat.go`), modelled
  from the point where the `StreamWriter` has been constructed.

Machine integers are modelled as `Int`/`Nat`; Go strings as Lean `String`
(sequences of Unicode scalar values); the HTTP response sink as a function
giving, for the k-th write of a given length, the byte count the sink reports
written and whether it reports an error.  `encoding/json` marshalling of the
concrete payload shapes used by the encoder is embedded directly (Go's
string escaper, including its HTML escaping of `<`, `>`, `&` and its
` `/` ` handling); `json.Unmarshal` of arbitrary tool-argument
text is kept abstract as a parameter of the orchestrator.
-/

namespace AgptGo

/-! ## Go's JSON string encoder (encoding/json, HTML-escaping defaults)

`json.Marshal` on a Go string emits `"` + escaped characters + `"`.  The
escaper passes safe characters through verbatim; `\`, `"`, newline, carriage
return and tab get two-character escapes; the remaining control characters
and (because the default encoder HTML-escapes) `<`, `>`, `&` get `\u00xx`
escapes; U+2028 and U+2029 get ` `/` `; everything else is copied
as-is. -/

/-- Lower-case hexadecimal digit for a value below 16 (Go writes `%04x`). -/
def toHexDigit (n : Nat) : Char :=
  if n < 10 then Char.ofNat ('0'.toNat + n) else Char.ofNat ('a'.toNat + (n - 10))

/-- Escape of one character, following Go `encoding/json`'s default
(HTML-escaping) string encoder. -/
def goEscapeChar (c : Char) : List Char :=
  if c = '"' then ['\\', '"']
  else if c = '\\' then ['\\', '\\']
  else if c = '\n' then ['\\', 'n']
  else if c = '\r' then ['\\', 'r']
  else if c = '\t' then ['\\', 't']
  else if c.toNat < 0x20 ∨ c = '<' ∨ c = '>' ∨ c = '&'
      ∨ c.toNat = 0x2028 ∨ c.toNat = 0x2029 then
    ['\\', 'u', toHexDigit (c.toNat / 4096 % 16), toHexDigit (c.toNat / 256 % 16),
     toHexDigit (c.toNat / 16 % 16), toHexDigit (c.toNat % 16)]
  else [c]

/-- Go's `json.Marshal` applied to a string value: the quoted, escaped form. -/
def goQuoteString (s : String) : String :=
  ⟨'"' :: (s.data.flatMap goEscapeChar ++ ['"'])⟩

/-! ## JSON values and Go marshalling of the encoder's payloads

Objects keep an explicit field list; each payload constructor below lists its
fields in the order Go's `encoding/json` emits them (struct fields in
declaration order, map keys sorted). -/

/-- A JSON value, as produced by marshalling the encoder's payload types. -/
inductive Json where
  | str (s : String)
  | bool (b : Bool)
  | num (n : Int)
  | arr (xs : List Json)
  | obj (fields : List (String × Json))

mutual

/-- Rendering of a JSON value, matching Go `encoding/json` output for the
payloads this system marshals. -/
def Json.render : Json → String
  | .str s => goQuoteString s
  | .bool b => if b then "true" else "false"
  | .num n => toString n
  | .arr xs => "[" ++ Json.renderArr xs ++ "]"
  | .obj fs => "\x7b" ++ Json.renderObj fs ++ "\x7d"

/-- Comma-separated rendering of array elements. -/
def Json.renderArr : List Json → String
  | [] => ""
  | [x] => Json.render x
  | x :: xs => Json.render x ++ "," ++ Json.renderArr xs

/-- Comma-separated rendering of object members. -/
def Json.renderObj : List (String × Json) → String
  | [] => ""
  | [(k, v)] => goQuoteString k ++ ":" ++ Json.render v
  | (k, v) :: fs => goQuoteString k ++ ":" ++ Json.render v ++ "," ++ Json.renderObj fs

end

/-! ## A JSON string-literal decoder (specification side of claim C5)

The round-trip property compares the encoder's output against what a JSON
decoder recovers.  The decoder below follows RFC 8259 string syntax with
Go-decoder behaviour at the edges: raw control characters are rejected,
`\uXXXX` escapes are decoded, surrogate pairs are combined, and a lone
surrogate escape decodes to U+FFFD. -/

/-- Numeric value of one hexadecimal digit character. -/
def hexDigitVal (c : Char) : Option Nat :=
  if '0' ≤ c ∧ c ≤ '9' then some (c.toNat - '0'.toNat)
  else if 'a' ≤ c ∧ c ≤ 'f' then some (c.toNat - 'a'.toNat + 10)
  else if 'A' ≤ c ∧ c ≤ 'F' then some (c.toNat - 'A'.toNat + 10)
  else none

/-- Value of a four-digit hexadecimal escape body. -/
def hex4Val (a b c d : Char) : Option Nat :=
  match hexDigitVal a, hexDigitVal b, hexDigitVal c, hexDigitVal d with
  | some va, some vb, some vc, some vd => some (((va * 16 + vb) * 16 + vc) * 16 + vd)
  | _, _, _, _ => none

/-- Decoding of the two-character escapes JSON allows. -/
def jsonUnescape : Char → Option Char
  | '"' => some '"'
  | '\\' => some '\\'
  | '/' => some '/'
  | 'b' => some (Char.ofNat 8)
  | 'f' => some (Char.ofNat 12)
  | 'n' => some '\n'
  | 'r' => some '\r'
  | 't' => some '\t'
  | _ => none

/-- Decoder for the body of a JSON string literal: the characters after the
opening quote.  Succeeds only if a closing quote ends the input exactly.
A `\uXXXX` escape must denote a Unicode scalar value, or open a valid
surrogate pair whose second half follows as another `\uXXXX` escape. -/
def parseStringBody : List Char → Option (List Char)
  | [] => none
  | c :: rest =>
    if c = '"' then (if rest.isEmpty then some [] else none)
    else if c = '\\' then
      match rest with
      | 'u' :: h1 :: h2 :: h3 :: h4 :: rest1 =>
        match hex4Val h1 h2 h3 h4 with
        | none => none
        | some n =>
          if n < 0xD800 ∨ 0xE000 ≤ n then
            (parseStringBody rest1).map (Char.ofNat n :: ·)
          else
            match rest1 with
            | '\\' :: 'u' :: g1 :: g2 :: g3 :: g4 :: rest2 =>
              match hex4Val g1 g2 g3 g4 with
              | some m =>
                if n < 0xDC00 ∧ 0xDC00 ≤ m ∧ m < 0xE000 then
                  (parseStringBody rest2).map
                    (Char.ofNat (0x10000 + (n - 0xD800) * 0x400 + (m - 0xDC00)) :: ·)
                else none
              | none => none
            | _ => none
      | e :: rest1 =>
        match jsonUnescape e with
        | some ch => (parseStringBody rest1).map (ch :: ·)
        | none => none
      | [] => none
    else if c.toNat < 0x20 then none
    else (parseStringBody rest).map (c :: ·)
termination_by l => l.length
decreasing_by all_goals simp_arith [List.length]

/-- Decoder for a whole JSON string literal. -/
def parseJsonStringLit (s : String) : Option String :=
  match s.data with
  | '"' :: rest => (parseStringBody rest).map (⟨·⟩)
  | _ => none

/-! ## The Part Encoder (`StreamWriter`, package `streaming`)

`NewStreamWriter` checks that the response writer supports flushing and sets
the streaming headers; neither is observable to the claims below, so the
model starts from a constructed writer.  The HTTP sink is abstracted as a
response function: for the k-th write of a request of a given character
count, it yields the count the sink reports written and whether it reports
an error (`io.WriteString`'s `(n, err)`). -/

/-- Part type tags (`PartType*` constants). -/
def PartTypeText : String := "0"
/-- Part tag for the data array part. -/
def PartTypeData : String := "2"
/-- Part tag for the error part. -/
def PartTypeError : String := "3"
/-- Part tag for the message annotation part. -/
def PartTypeAnnotation : String := "8"
/-- Part tag for the completed tool call part. -/
def PartTypeToolCall : String := "9"
/-- Part tag for the tool result part. -/
def PartTypeToolResult : String := "a"
/-- Part tag for the tool call start part. -/
def PartTypeToolCallStart : String := "b"
/-- Part tag for the tool call argument delta part. -/
def PartTypeToolCallArgDelta : String := "c"
/-- Part tag for the finish message part. -/
def PartTypeFinishMessage : String := "d"
/-- Part tag for the finish step part. -/
def PartTypeFinishStep : String := "e"
/-- Part tag for the message start part. -/
def PartTypeStart : String := "f"

/-- Finish reason constant `FinishReasonStop` (`FinishReasonType` is a Go
string type, so reasons are modelled as strings). -/
def FinishReasonStop : String := "stop"
/-- Finish reason constant `FinishReasonLength`. -/
def FinishReasonLength : String := "length"
/-- Finish reason constant `FinishReasonContentFilter`. -/
def FinishReasonContentFilter : String := "content-filter"
/-- Finish reason constant `FinishReasonToolCalls`. -/
def FinishReasonToolCalls : String := "tool-calls"
/-- Finish reason constant `FinishReasonError`. -/
def FinishReasonError : String := "error"

/-- Errors returned by the stream writer: the empty-field validation errors
(`ErrEmptyMessageID`, `ErrEmptyToolCallID`, `ErrEmptyToolName`) and `writeRaw`'s
two transport failures ("write failed after n bytes" and
"partial write: wrote n of total bytes"). -/
inductive StreamError where
  | emptyMessageId
  | emptyToolCallId
  | emptyToolName
  | writeFailed (n : Nat)
  | partialWrite (n total : Nat)
deriving DecidableEq, Repr

/-- The HTTP response sink: `resp k len = (n, e)` means the k-th write, of
`len` characters, reports `n` written and an error iff `e`. -/
structure Sink where
  resp : Nat → Nat → Nat × Bool

/-- State threaded through the writer: the sink, every write attempted so far
(the requested strings, in order), the characters actually delivered, and the
parts fully written so far (tag and payload). -/
structure WriterState where
  sink : Sink
  attempts : List String
  out : List Char
  parts : List (String × Json)

/-- A fresh writer over a sink, as returned by `NewStreamWriter`. -/
def mkWriterState (sink : Sink) : WriterState :=
  { sink := sink, attempts := [], out := [], parts := [] }

/-- Embedding of `(sw *StreamWriter) writeRaw`: perform the write, surface a
reported error as a write failure, and a short count as a partial write. -/
def writeRaw (st : WriterState) (data : String) : Except StreamError Unit × WriterState :=
  let n := (st.sink.resp st.attempts.length data.length).1
  let e := (st.sink.resp st.attempts.length data.length).2
  let st' : WriterState :=
    { st with attempts := st.attempts ++ [data], out := st.out ++ data.data.take n }
  if e then (.error (.writeFailed n), st')
  else if n ≠ data.length then (.error (.partialWrite n data.length), st')
  else (.ok (), st')

/-- Embedding of `(sw *StreamWriter) writePart`: marshal the payload and
write `tag + ":" + json + "\n"`.  Marshalling of the payload shapes this
system produces never fails, so no `EncodingFailed` branch arises.  The
structured `parts` trace records each fully delivered part. -/
def writePart (st : WriterState) (tag : String) (payload : Json) : Except StreamError Unit × WriterState :=
  match writeRaw st (tag ++ ":" ++ payload.render ++ "\n") with
  | (.ok _, st') => (.ok (), { st' with parts := st'.parts ++ [(tag, payload)] })
  | (.error err, st') => (.error err, st')

/-- Embedding of `WriteStart` (part `f`). -/
def WriteStart (st : WriterState) (messageID : String) : Except StreamError Unit × WriterState :=
  if messageID = "" then (.error .emptyMessageId, st)
  else writePart st PartTypeStart (.obj [("messageId", .str messageID)])

/-- Embedding of `WriteText` (part `0`): the payload is the JSON-encoded
string itself. -/
def WriteText (st : WriterState) (text : String) : Except StreamError Unit × WriterState :=
  writePart st PartTypeText (.str text)

/-- Embedding of `WriteError` (part `3`). -/
def WriteError (st : WriterState) (message : String) : Except StreamError Unit × WriterState :=
  writePart st PartTypeError (.str message)

/-- Embedding of `WriteAnnotation` (part `8`): the value wrapped in a
one-element array. -/
def WriteAnnotation (st : WriterState) (value : Json) : Except StreamError Unit × WriterState :=
  writePart st PartTypeAnnotation (.arr [value])

/-- Token usage statistics (`streaming.Usage`). -/
structure Usage where
  promptTokens : Int
  completionTokens : Int
  totalTokens : Int
deriving DecidableEq, Repr

/-- Marshalled form of `streaming.Usage` (fields in declaration order). -/
def usageJson (u : Usage) : Json :=
  .obj [("promptTokens", .num u.promptTokens),
        ("completionTokens", .num u.completionTokens),
        ("totalTokens", .num u.totalTokens)]

/-- Marshalled form of `FinishStepData`: `usage` carries `omitempty`, and
`isContinued` carries `omitempty` so it is emitted only when true. -/
def finishStepPayload (reason : String) (usage : Option Usage) (isContinued : Bool) : Json :=
  .obj ([("finishReason", .str reason)]
    ++ (match usage with | some u => [("usage", usageJson u)] | none => [])
    ++ (if isContinued then [("isContinued", .bool true)] else []))

/-- Marshalled form of `FinishMessageData` (`usage` carries `omitempty`). -/
def finishMessagePayload (reason : String) (usage : Option Usage) : Json :=
  .obj ([("finishReason", .str reason)]
    ++ (match usage with | some u => [("usage", usageJson u)] | none => []))

/-- Embedding of `WriteToolCall` (part `9`). -/
def WriteToolCall (st : WriterState) (toolCallID toolName : String) (args : Json) :
    Except StreamError Unit × WriterState :=
  if toolCallID = "" then (.error .emptyToolCallId, st)
  else if toolName = "" then (.error .emptyToolName, st)
  else writePart st PartTypeToolCall
    (.obj [("toolCallId", .str toolCallID), ("toolName", .str toolName), ("args", args)])

/-- Embedding of `WriteToolResult` (part `a`). -/
def WriteToolResult (st : WriterState) (toolCallID : String) (result : Json) :
    Except StreamError Unit × WriterState :=
  if toolCallID = "" then (.error .emptyToolCallId, st)
  else writePart st PartTypeToolResult
    (.obj [("toolCallId", .str toolCallID), ("result", result)])

/-- Embedding of `WriteToolCallStart` (part `b`). -/
def WriteToolCallStart (st : WriterState) (toolCallID toolName : String) :
    Except StreamError Unit × WriterState :=
  if toolCallID = "" then (.error .emptyToolCallId, st)
  else if toolName = "" then (.error .emptyToolName, st)
  else writePart st PartTypeToolCallStart
    (.obj [("toolCallId", .str toolCallID), ("toolName", .str toolName)])

/-- Embedding of `WriteToolCallArgDelta` (part `c`). -/
def WriteToolCallArgDelta (st : WriterState) (toolCallID argsDelta : String) :
    Except StreamError Unit × WriterState :=
  if toolCallID = "" then (.error .emptyToolCallId, st)
  else writePart st PartTypeToolCallArgDelta
    (.obj [("toolCallId", .str toolCallID), ("argsTextDelta", .str argsDelta)])

/-- Embedding of `WriteFinishStep` (part `e`). -/
def WriteFinishStep (st : WriterState) (reason : String) (usage : Option Usage)
    (isContinued : Bool) : Except StreamError Unit × WriterState :=
  writePart st PartTypeFinishStep (finishStepPayload reason usage isContinued)

/-- Embedding of `WriteFinishMessage` (part `d`). -/
def WriteFinishMessage (st : WriterState) (reason : String) (usage : Option Usage) :
    Except StreamError Unit × WriterState :=
  writePart st PartTypeFinishMessage (finishMessagePayload reason usage)

/-! ## The Delta Accumulator (`LLMService.ChatStreamWithTools`, package `services`)

The provider transport is consumed as an ordered sequence of events: each
`stream.Recv()` yields `io.EOF`, an error, or a response carrying choices
(the code uses only the first) — plus, in the OpenAI stream shape, an
optional usage record for the turn.  Cancellation never fires in this model
(the claims under proof concern uncancelled turns), so the `select` arms
always take the channel send. -/

/-- Token usage as reported by the provider / `services.CompletionUsage`. -/
structure CompletionUsage where
  promptTokens : Int
  completionTokens : Int
  totalTokens : Int
deriving DecidableEq, Repr

/-- One tool-call fragment inside a provider delta (`openai.ToolCall` in a
stream delta): `Index` is a `*int`, the rest are plain strings. -/
structure RawToolCall where
  index : Option Int
  id : String
  toolType : String
  name : String
  arguments : String
deriving DecidableEq, Repr

/-- The first choice of one provider response: its delta content, its
tool-call fragments, and its finish reason (empty while streaming). -/
structure RawChoice where
  content : String
  toolCalls : List RawToolCall
  finishReason : String
deriving DecidableEq, Repr

/-- One event from the provider transport. -/
inductive ProviderEvent where
  | eof
  | recvError
  | response (choices : List RawChoice) (usage : Option CompletionUsage)
deriving DecidableEq, Repr

/-- Tool-call delta forwarded to the handler (`services.ToolCallDelta`). -/
structure ToolCallDelta where
  index : Int
  id : String
  toolType : String
  name : String
  argDelta : String
deriving DecidableEq, Repr

/-- A completed tool call (`services.ToolCall`, with its nested `Function`
struct flattened into `name` and `arguments`). -/
structure SvcToolCall where
  id : String
  toolType : String
  name : String
  arguments : String
deriving DecidableEq, Repr

/-- Normalized chunk produced by the accumulator (`services.StreamChunk`). -/
structure StreamChunk where
  content : String
  toolCallDeltas : List ToolCallDelta
  toolCalls : List SvcToolCall
  done : Bool
  finishReason : String
  usage : Option CompletionUsage
deriving DecidableEq, Repr

/-- Per-index accumulation record (`services.toolCallAccumulator`). -/
structure ToolCallAccEntry where
  id : String
  toolType : String
  name : String
  arguments : String
deriving DecidableEq, Repr

/-- The zero `toolCallAccumulator` allocated for a new index. -/
def emptyAccEntry : ToolCallAccEntry :=
  { id := "", toolType := "", name := "", arguments := "" }

/-- One fragment folded into an entry: `id`, `type` and `name` are
overwritten only by non-empty values; a non-empty argument fragment is
appended to the buffer. -/
def updateAccEntry (acc : ToolCallAccEntry) (tc : RawToolCall) : ToolCallAccEntry :=
  { id := if tc.id ≠ "" then tc.id else acc.id,
    toolType := if tc.toolType ≠ "" then tc.toolType else acc.toolType,
    name := if tc.name ≠ "" then tc.name else acc.name,
    arguments := if tc.arguments ≠ "" then acc.arguments ++ tc.arguments else acc.arguments }

/-- The accumulator map `map[int]*toolCallAccumulator`, as an association
list.  New indices are appended; Go's map iteration order is unspecified,
and no property proved below depends on the order of `materializeToolCalls`. -/
abbrev AccMap := List (Int × ToolCallAccEntry)

/-- Lookup of the entry at an index. -/
def lookupAcc (m : AccMap) (i : Int) : Option ToolCallAccEntry :=
  match m with
  | [] => none
  | (j, e) :: rest => if j = i then some e else lookupAcc rest i

/-- Store of an entry at an index: replace in place, or append a new key. -/
def setAcc (m : AccMap) (i : Int) (e : ToolCallAccEntry) : AccMap :=
  match m with
  | [] => [(i, e)]
  | (j, e') :: rest => if j = i then (j, e) :: rest else (j, e') :: setAcc rest i e

/-- The per-delta loop over `choice.Delta.ToolCalls`: fold each fragment into
the map (index defaulting to 0 when nil) and record the raw fragment as a
`ToolCallDelta` for immediate client streaming. -/
def processRawToolCalls (m : AccMap) : List RawToolCall → AccMap × List ToolCallDelta
  | [] => (m, [])
  | tc :: rest =>
    let idx := tc.index.getD 0
    let cur := (lookupAcc m idx).getD emptyAccEntry
    let m' := setAcc m idx (updateAccEntry cur tc)
    let delta : ToolCallDelta :=
      { index := idx, id := tc.id, toolType := tc.toolType, name := tc.name,
        argDelta := tc.arguments }
    let (m'', ds) := processRawToolCalls m' rest
    (m'', delta :: ds)

/-- Materialization of every accumulator entry into a completed
`services.ToolCall`, performed when the turn finishes with `tool_calls`. -/
def materializeToolCalls (m : AccMap) : List SvcToolCall :=
  m.map (fun e =>
    { id := e.2.id, toolType := e.2.toolType, name := e.2.name,
      arguments := e.2.arguments })

/-- The terminal chunk sent on `io.EOF`. -/
def eofChunk : StreamChunk :=
  { content := "", toolCallDeltas := [], toolCalls := [], done := true,
    finishReason := "stop", usage := none }

/-- The terminal chunk sent on a receive error. -/
def recvErrorChunk : StreamChunk :=
  { content := "", toolCallDeltas := [], toolCalls := [], done := true,
    finishReason := "error", usage := none }

/-- The goroutine body of `ChatStreamWithTools`, folding provider events into
the emitted chunk sequence with accumulator map `m`.  A response with no
choices emits nothing; a choice with a finish reason emits the terminal
chunk — materializing tool calls only for `tool_calls` — and stops. -/
def chatStreamGo (m : AccMap) : List ProviderEvent → List StreamChunk
  | [] => []
  | .eof :: _ => [eofChunk]
  | .recvError :: _ => [recvErrorChunk]
  | .response choices _usage :: rest =>
    match choices with
    | [] => chatStreamGo m rest
    | choice :: _ =>
      let (m', deltas) := processRawToolCalls m choice.toolCalls
      if choice.finishReason = "" then
        { content := choice.content, toolCallDeltas := deltas, toolCalls := [],
          done := false, finishReason := "", usage := none } :: chatStreamGo m' rest
      else
        [{ content := choice.content, toolCallDeltas := deltas,
           toolCalls := if choice.finishReason = "tool_calls"
                        then materializeToolCalls m' else [],
           done := true, finishReason := choice.finishReason, usage := none }]

/-- Embedding of `ChatStreamWithTools`: the chunk sequence the accumulator
sends over its channel for one provider turn, starting from an empty map. -/
def ChatStreamWithTools (events : List ProviderEvent) : List StreamChunk :=
  chatStreamGo [] events

/-! ## The Stream Orchestrator (`ChatHandler.SendMessageStream`)

Modelled from the point where the request has been validated, the user
message persisted and the `StreamWriter` constructed: the loop over the
accumulator's chunks, the terminal-chunk handling, the persistence call and
the annotation.  `json.Unmarshal` of tool-argument text and the tool
executor are external collaborators, passed in as an environment. -/

/-- Result of the tool executor (`services.ToolExecutionResult`), with
`result,omitempty` and `error,omitempty`. -/
structure ToolExecutionResult where
  success : Bool
  result : Option Json
  error : String

/-- Marshalled form of `ToolExecutionResult` (fields in declaration order,
`result` and `error` omitted when empty). -/
def toolExecutionResultJson (r : ToolExecutionResult) : Json :=
  .obj ([("success", .bool r.success)]
    ++ (match r.result with | some v => [("result", v)] | none => [])
    ++ (if r.error ≠ "" then [("error", .str r.error)] else []))

/-- External collaborators of the orchestrator: `json.Unmarshal` on an
argument string (`none` models a parse error), and
`ToolExecutor.ExecuteToolCall` (`.error msg` models a returned Go error). -/
structure OrchEnv where
  unmarshal : String → Option Json
  execTool : SvcToolCall → Except String ToolExecutionResult

/-- The finish-reason switch of `SendMessageStream`: provider reasons mapped
onto the protocol enum, unknown non-empty reasons passed through, and the
initial value `FinishReasonStop` kept for an empty reason. -/
def mapFinishReason (r : String) : String :=
  if r = "stop" then FinishReasonStop
  else if r = "length" then FinishReasonLength
  else if r = "tool_calls" then FinishReasonToolCalls
  else if r = "content_filter" then FinishReasonContentFilter
  else if r = "error" then FinishReasonError
  else if r ≠ "" then r
  else FinishReasonStop

/-- Field-by-field conversion of `chunk.Usage` into `streaming.Usage` (nil
stays nil). -/
def convUsage : Option CompletionUsage → Option Usage
  | none => none
  | some u => some { promptTokens := u.promptTokens,
                     completionTokens := u.completionTokens,
                     totalTokens := u.totalTokens }

/-- The per-chunk loop over `chunk.ToolCallDeltas`: write a tool-call start
the first time an index carries both a non-empty id and name, then write the
argument delta — with the delta's own `ID` field — when a fragment is
present.  `streamed` is the `streamedToolCalls` map (the set of indices
already started); a write error aborts with the state at failure. -/
def processToolCallDeltas (st : WriterState) (streamed : List Int) :
    List ToolCallDelta → Except WriterState (WriterState × List Int)
  | [] => .ok (st, streamed)
  | d :: rest =>
    let started : Except WriterState (WriterState × List Int) :=
      if d.id ≠ "" ∧ d.name ≠ "" ∧ ¬ streamed.contains d.index then
        match WriteToolCallStart st d.id d.name with
        | (.error _, stE) => .error stE
        | (.ok _, st1) => .ok (st1, d.index :: streamed)
      else .ok (st, streamed)
    match started with
    | .error stE => .error stE
    | .ok (st1, streamed1) =>
      if d.argDelta ≠ "" then
        match WriteToolCallArgDelta st1 d.id d.argDelta with
        | (.error _, stE) => .error stE
        | (.ok _, st2) => processToolCallDeltas st2 streamed1 rest
      else processToolCallDeltas st1 streamed1 rest

/-- The per-chunk loop over `chunk.ToolCalls`: write the completed call
(arguments unmarshalled, falling back to the raw string), execute the tool,
and write the result — an executor error becomes an in-band
`{"error": ..., "success": false}` result (map keys in Go's sorted order)
and the loop continues. -/
def processCompletedToolCalls (env : OrchEnv) (st : WriterState) :
    List SvcToolCall → Except WriterState WriterState
  | [] => .ok st
  | tc :: rest =>
    let args : Json :=
      match env.unmarshal tc.arguments with
      | some v => v
      | none => .str tc.arguments
    match WriteToolCall st tc.id tc.name args with
    | (.error _, stE) => .error stE
    | (.ok _, st1) =>
      match env.execTool tc with
      | .error msg =>
        match WriteToolResult st1 tc.id
            (.obj [("error", .str ("Failed to execute tool: " ++ msg)),
                   ("success", .bool false)]) with
        | (.error _, stE) => .error stE
        | (.ok _, st2) => processCompletedToolCalls env st2 rest
      | .ok res =>
        match WriteToolResult st1 tc.id (toolExecutionResultJson res) with
        | (.error _, stE) => .error stE
        | (.ok _, st2) => processCompletedToolCalls env st2 rest

/-- The `chunk.Done` branch: map the finish reason, convert usage, write the
finish step with `isContinued = (reason == tool-calls)`, and write the final
finish message only when not continuing. -/
def handleDoneChunk (st : WriterState) (chunk : StreamChunk) :
    Except WriterState WriterState :=
  let finishReason := mapFinishReason chunk.finishReason
  let usage := convUsage chunk.usage
  let isContinued : Bool := finishReason = FinishReasonToolCalls
  match WriteFinishStep st finishReason usage isContinued with
  | (.error _, stE) => .error stE
  | (.ok _, st1) =>
    if isContinued then .ok st1
    else
      match WriteFinishMessage st1 finishReason usage with
      | (.error _, stE) => .error stE
      | (.ok _, st2) => .ok st2

/-- The `for chunk := range chunks` loop: text content written and gathered
into the full-response buffer, tool-call deltas and completed tool calls
forwarded, and the done branch breaking out of the loop.  `.error st` is the
Go early `return` with the writer in state `st`; `.ok` carries the final
state and accumulated content. -/
def streamLoop (env : OrchEnv) (st : WriterState) (streamed : List Int)
    (fullContent : String) : List StreamChunk → Except WriterState (WriterState × String)
  | [] => .ok (st, fullContent)
  | chunk :: rest =>
    let contentStep : Except WriterState (WriterState × String) :=
      if chunk.content ≠ "" then
        match WriteText st chunk.content with
        | (.error _, stE) => .error stE
        | (.ok _, st1) => .ok (st1, fullContent ++ chunk.content)
      else .ok (st, fullContent)
    match contentStep with
    | .error stE => .error stE
    | .ok (st1, full1) =>
      match processToolCallDeltas st1 streamed chunk.toolCallDeltas with
      | .error stE => .error stE
      | .ok (st2, streamed2) =>
        match processCompletedToolCalls env st2 chunk.toolCalls with
        | .error stE => .error stE
        | .ok st3 =>
          if chunk.done then
            match handleDoneChunk st3 chunk with
            | .error stE => .error stE
            | .ok st4 => .ok (st4, full1)
          else streamLoop env st3 streamed2 full1 rest

/-- Outcome of one orchestrated turn: the final writer state, the content
handed to `SaveStreamedResponse` (`none` when the handler returned before
reaching persistence), and whether the annotation write was reached. -/
structure TurnOutcome where
  st : WriterState
  savedContent : Option String
  annotationAttempted : Bool

/-- Embedding of the streaming body of `SendMessageStream`: write the start
part, run the chunk loop, then — only on the non-aborted path — persist the
accumulated content and write the `{userMessageId, messageId}` annotation
(map keys in Go's sorted order; annotation failure is only logged). -/
def SendMessageStream (env : OrchEnv) (st0 : WriterState)
    (messageID userMessageID : String) (chunks : List StreamChunk) : TurnOutcome :=
  match WriteStart st0 messageID with
  | (.error _, st) => { st := st, savedContent := none, annotationAttempted := false }
  | (.ok _, st) =>
    match streamLoop env st [] "" chunks with
    | .error stE => { st := stE, savedContent := none, annotationAttempted := false }
    | .ok (st1, content) =>
      let annotated := WriteAnnotation st1
        (.obj [("messageId", .str messageID), ("userMessageId", .str userMessageID)])
      { st := annotated.2, savedContent := some content, annotationAttempted := true }

/-! ## Auxiliary predicates and concrete instances used by the theorems -/

/-- The sink fully accepted attempt `i` without reporting an error. -/
def fullOkAt (sink : Sink) (attempts : List String) (i : Nat) : Prop :=
  sink.resp i ((attempts.getD i "").length) = ((attempts.getD i "").length, false)

/-- Every attempted write so far was fully accepted. -/
def AllOk (st : WriterState) : Prop :=
  ∀ i, i < st.attempts.length → fullOkAt st.sink st.attempts i

/-- Every attempted write, except possibly the last, was fully accepted:
after a failed write the orchestrator attempts no further write. -/
def AllButLastOk (st : WriterState) : Prop :=
  ∀ i, i + 1 < st.attempts.length → fullOkAt st.sink st.attempts i

/-- A sink that accepts every write in full. -/
def perfectSink : Sink := { resp := fun _ len => (len, false) }

/-- A sink that reports an error on every write, accepting nothing. -/
def brokenSink : Sink := { resp := fun _ _ => (0, true) }

/-- A sink that accepts only 5 characters of every write, with no error. -/
def shortSink : Sink := { resp := fun _ _ => (5, false) }

/-- A concrete orchestrator environment: argument unmarshalling fails (the
handler then falls back to the raw string) and every tool executes
successfully. -/
def env0 : OrchEnv :=
  { unmarshal := fun _ => none,
    execTool := fun _ => .ok { success := true, result := none, error := "" } }

/-- Is a provider event non-terminal (a response whose first choice, if any,
carries no finish reason)? -/
def nonTerminalEvent : ProviderEvent → Bool
  | .response choices _ =>
    (match choices with
     | [] => true
     | ch :: _ => ch.finishReason == "")
  | _ => false

/-- Provider turn of claim C1: index 0 gets id and name in the first
fragment, the two argument fragments arrive in later deltas that carry an
empty id — the standard OpenAI continuation shape — and the turn finishes
with `tool_calls`. -/
def evsC1 : List ProviderEvent :=
  [.response [{ content := "",
                toolCalls := [{ index := some 0, id := "c1", toolType := "function",
                                name := "get_weather", arguments := "" }],
                finishReason := "" }] none,
   .response [{ content := "",
                toolCalls := [{ index := some 0, id := "", toolType := "",
                                name := "", arguments := "\x7b\"loc\":" }],
                finishReason := "" }] none,
   .response [{ content := "",
                toolCalls := [{ index := some 0, id := "", toolType := "",
                                name := "", arguments := "\"SF\"\x7d" }],
                finishReason := "" }] none,
   .response [{ content := "", toolCalls := [], finishReason := "tool_calls" }] none]

/-- Provider turn of claim C2 (same canonical scenario as C1). -/
def evsC2 : List ProviderEvent :=
  [.response [{ content := "",
                toolCalls := [{ index := some 0, id := "c1", toolType := "function",
                                name := "get_weather", arguments := "" }],
                finishReason := "" }] none,
   .response [{ content := "",
                toolCalls := [{ index := some 0, id := "", toolType := "",
                                name := "", arguments := "\x7b\"loc\":" }],
                finishReason := "" }] none,
   .response [{ content := "",
                toolCalls := [{ index := some 0, id := "", toolType := "",
                                name := "", arguments := "\"SF\"\x7d" }],
                finishReason := "" }] none,
   .response [{ content := "", toolCalls := [], finishReason := "tool_calls" }] none]

/-- The completed tool call claim C2 expects on the terminal chunk. -/
def expectedC2ToolCall : SvcToolCall :=
  { id := "c1", toolType := "function", name := "get_weather",
    arguments := "\x7b\"loc\":\"SF\"\x7d" }

/-- Provider turn of claim C8: one response whose choice finishes with
`stop` and which reports usage totals 5/3/8 for the turn. -/
def evsC8 : List ProviderEvent :=
  [.response [{ content := "Hi", toolCalls := [], finishReason := "stop" }]
    (some { promptTokens := 5, completionTokens := 3, totalTokens := 8 })]

/-- Non-terminal prefix used by the C10 witness: a single fragment that
leaves a partially assembled entry in the accumulator map. -/
def evsC10Prefix : List ProviderEvent :=
  [.response [{ content := "",
                toolCalls := [{ index := some 0, id := "c1", toolType := "function",
                                name := "get_weather", arguments := "\x7b\"lo" }],
                finishReason := "" }] none]

/-! ## Theorems -/

/-- Every Lean character is a Unicode scalar value: never a surrogate. -/
theorem char_scalar (c : Char) : c.toNat < 0xD800 ∨ 0xE000 ≤ c.toNat := by
  have e : c.toNat = c.val.toNat := rfl
  rcases c.valid with h | ⟨h1, _⟩
  · exact Or.inl (by rw [e]; exact h)
  · exact Or.inr (by rw [e]; omega)

/-- The hexadecimal digit characters decode back to their values. -/
theorem hexDigitVal_toHexDigit : ∀ d < 16, hexDigitVal (toHexDigit d) = some d := by
  decide

/-- A four-digit hexadecimal escape body decodes back to its value. -/
theorem hex4Val_digits (n : Nat) (h : n < 65536) :
    hex4Val (toHexDigit (n / 4096 % 16)) (toHexDigit (n / 256 % 16))
      (toHexDigit (n / 16 % 16)) (toHexDigit (n % 16)) = some n := by
  have h1 := hexDigitVal_toHexDigit (n / 4096 % 16) (Nat.mod_lt _ (by omega))
  have h2 := hexDigitVal_toHexDigit (n / 256 % 16) (Nat.mod_lt _ (by omega))
  have h3 := hexDigitVal_toHexDigit (n / 16 % 16) (Nat.mod_lt _ (by omega))
  have h4 := hexDigitVal_toHexDigit (n % 16) (Nat.mod_lt _ (by omega))
  unfold hex4Val
  rw [h1, h2, h3, h4]
  exact congrArg some (by omega)

/-- Decoding one escaped character undoes `goEscapeChar`. -/
theorem parseStringBody_goEscapeChar (c : Char) (t : List Char) :
    parseStringBody (goEscapeChar c ++ t) = (parseStringBody t).map (c :: ·) := by
  unfold goEscapeChar
  split_ifs with h1 h2 h3 h4 h5 h6
  · subst h1; simp [parseStringBody, jsonUnescape]
  · subst h2; simp [parseStringBody, jsonUnescape]
  · subst h3; simp [parseStringBody, jsonUnescape]
  · subst h4; simp [parseStringBody, jsonUnescape]
  · subst h5; simp [parseStringBody, jsonUnescape]
  · have hlt : c.toNat < 65536 := by
      rcases h6 with h | h | h | h | h | h
      · omega
      · subst h; decide
      · subst h; decide
      · subst h; decide
      · omega
      · omega
    have hv := hex4Val_digits c.toNat hlt
    have hs := char_scalar c
    simp only [List.cons_append, List.nil_append]
    simp [parseStringBody, hv, hs, Char.ofNat_toNat]
  · have hc : ¬ c.toNat < 0x20 := fun hh => h6 (Or.inl hh)
    rw [parseStringBody.eq_def]
    simp [h1, h2, hc]

/-- Decoding an escaped run stops exactly at the closing quote. -/
theorem parseStringBody_flatMap (cs : List Char) :
    parseStringBody (cs.flatMap goEscapeChar ++ ['"']) = some cs := by
  induction cs with
  | nil => simp [parseStringBody]
  | cons c cs ih =>
    rw [List.flatMap_cons, List.append_assoc, parseStringBody_goEscapeChar, ih]
    rfl

/-- The string codec round-trip: Go's marshalled string decodes back to the
original, for every string. -/
theorem parseJsonStringLit_goQuoteString (s : String) :
    parseJsonStringLit (goQuoteString s) = some s := by
  show (parseStringBody (s.data.flatMap goEscapeChar ++ ['"'])).map (⟨·⟩) = some s
  rw [parseStringBody_flatMap]
  rfl

/-- No escape output ever contains a raw newline. -/
theorem goEscapeChar_ne_newline (c x : Char) (hx : x ∈ goEscapeChar c) : x ≠ '\n' := by
  unfold goEscapeChar at hx
  have hd : ∀ d, d < 16 → toHexDigit d ≠ '\n' := by decide
  split_ifs at hx with h1 h2 h3 h4 h5 h6
  · fin_cases hx <;> decide
  · fin_cases hx <;> decide
  · fin_cases hx <;> decide
  · fin_cases hx <;> decide
  · fin_cases hx <;> decide
  · simp only [List.mem_cons, List.not_mem_nil, or_false] at hx
    rcases hx with h | h | h | h | h | h
    · subst h; decide
    · subst h; decide
    · subst h; exact hd _ (Nat.mod_lt _ (by omega))
    · subst h; exact hd _ (Nat.mod_lt _ (by omega))
    · subst h; exact hd _ (Nat.mod_lt _ (by omega))
    · subst h; exact hd _ (Nat.mod_lt _ (by omega))
  · simp only [List.mem_cons, List.not_mem_nil, or_false] at hx
    subst hx
    exact h3

/-- The marshalled string occupies a single line: it contains no newline. -/
theorem goQuoteString_count_newline (s : String) :
    (goQuoteString s).data.count '\n' = 0 := by
  rw [List.count_eq_zero]
  intro hmem
  simp only [goQuoteString, List.mem_cons, List.mem_append] at hmem
  rcases hmem with h | h
  · exact absurd h (by decide)
  · rcases h with h | h
    · rcases List.mem_flatMap.mp h with ⟨a, _, hin⟩
      exact goEscapeChar_ne_newline a '\n' hin rfl
    · simp at h

/-- C5: for every string `s` — including strings with newlines, quotes, tabs
and non-ASCII characters — `WriteText s` on a working sink succeeds, appends
exactly the line `0:<json>\n` to the sink output, that line contains exactly
one newline (the terminator), and decoding the JSON payload of the line
yields exactly `s`. -/
theorem writeText_line_roundtrip (s : String) (st : WriterState)
    (hsink : ∀ i len, st.sink.resp i len = (len, false)) :
    (WriteText st s).1 = .ok () ∧
    (WriteText st s).2.out = st.out ++ (PartTypeText ++ ":" ++ goQuoteString s ++ "\n").data ∧
    (PartTypeText ++ ":" ++ goQuoteString s ++ "\n").data.count '\n' = 1 ∧
    parseJsonStringLit (goQuoteString s) = some s := by
  have hr : Json.render (.str s) = goQuoteString s := rfl
  refine ⟨?_, ?_, ?_, parseJsonStringLit_goQuoteString s⟩
  · simp [WriteText, writePart, writeRaw, hsink]
  · simp [WriteText, writePart, writeRaw, hsink, hr, String.data_append]
    have e1 : (":").length = 1 := rfl
    have e2 : ("\n").length = 1 := rfl
    omega
  · simp [String.data_append, List.count_append, goQuoteString_count_newline,
      PartTypeText]

/-- Witness for C5 at a string containing a newline, a quote, a tab and a
non-ASCII character. -/
theorem writeText_line_roundtrip_witness :
    (WriteText (mkWriterState perfectSink) "a\n\"é\t").1 = .ok () ∧
    (WriteText (mkWriterState perfectSink) "a\n\"é\t").2.out =
      (mkWriterState perfectSink).out ++
        (PartTypeText ++ ":" ++ goQuoteString "a\n\"é\t" ++ "\n").data ∧
    (PartTypeText ++ ":" ++ goQuoteString "a\n\"é\t" ++ "\n").data.count '\n' = 1 ∧
    parseJsonStringLit (goQuoteString "a\n\"é\t") = some "a\n\"é\t" :=
  writeText_line_roundtrip "a\n\"é\t" (mkWriterState perfectSink) (fun _ _ => rfl)

/-- C6: `WriteStart` with an empty message id, `WriteToolCallStart` with an
empty id or (for a non-empty id) an empty name, and `WriteToolCall` with an
empty id each return the documented empty-field error with the writer state
unchanged — nothing reaches the sink and later writes are unaffected. -/
theorem emptyField_validation (st : WriterState) (id name : String) (args : Json) :
    WriteStart st "" = (.error .emptyMessageId, st) ∧
    WriteToolCallStart st "" name = (.error .emptyToolCallId, st) ∧
    (id ≠ "" → WriteToolCallStart st id "" = (.error .emptyToolName, st)) ∧
    WriteToolCall st "" name args = (.error .emptyToolCallId, st) := by
  refine ⟨by simp [WriteStart], by simp [WriteToolCallStart], ?_, by simp [WriteToolCall]⟩
  intro h
  simp [WriteToolCallStart, h]

/-- Witness for C6 with a non-empty tool-call id and empty name. -/
theorem emptyField_validation_witness :
    WriteToolCallStart (mkWriterState perfectSink) "x" "" =
      (.error .emptyToolName, mkWriterState perfectSink) :=
  (emptyField_validation (mkWriterState perfectSink) "x" "n" (.str "a")).2.2.1
    (by decide)

/-- C2: for the canonical provider turn — id `c1` and name `get_weather` in
the first fragment of index 0, then the two argument fragments, then a
`tool_calls` finish — the accumulator's terminal chunk carries exactly one
completed tool call with the sticky id and name and the concatenated
arguments. -/
theorem accumulator_materializes_single_toolcall :
    (ChatStreamWithTools evsC2).getLast? = some
      { content := "", toolCallDeltas := [], toolCalls := [expectedC2ToolCall],
        done := true, finishReason := "tool_calls", usage := none } := by
  decide

/-- C8: the accumulator drops the usage the provider reports: for the turn
`evsC8`, whose single response finishes with `stop` and reports usage totals
5/3/8, the emitted terminal chunk carries `usage = none` (no chunk ever has
usage populated, contradicting the claim that the terminal chunk carries the
turn's token-usage totals). -/
theorem terminal_chunk_drops_reported_usage :
    evsC8 = [.response [{ content := "Hi", toolCalls := [], finishReason := "stop" }]
      (some { promptTokens := 5, completionTokens := 3, totalTokens := 8 })] ∧
    ChatStreamWithTools evsC8 =
      [{ content := "Hi", toolCallDeltas := [], toolCalls := [], done := true,
         finishReason := "stop", usage := none }] := by
  exact ⟨rfl, by decide⟩

/-- Chunks produced by the accumulator loop carry completed tool calls only
when terminal with provider finish reason `tool_calls`, whatever the starting
map. -/
theorem chatStreamGo_toolCalls_characterization :
    ∀ (evs : List ProviderEvent) (m : AccMap) (c : StreamChunk),
      c ∈ chatStreamGo m evs → c.toolCalls ≠ [] →
      c.done = true ∧ c.finishReason = "tool_calls" := by
  intro evs
  induction evs with
  | nil => intro m c hc _; simp [chatStreamGo] at hc
  | cons e rest ih =>
    intro m c hc hne
    cases e with
    | eof =>
      simp [chatStreamGo] at hc
      subst hc
      exact absurd rfl hne
    | recvError =>
      simp [chatStreamGo] at hc
      subst hc
      exact absurd rfl hne
    | response choices usage =>
      cases choices with
      | nil => exact ih m c (by simpa [chatStreamGo] using hc) hne
      | cons choice more =>
        by_cases hfin : choice.finishReason = ""
        · simp only [chatStreamGo, hfin, if_pos, if_true] at hc
          rcases List.mem_cons.mp hc with h | h
          · subst h; exact absurd rfl hne
          · exact ih _ c h hne
        · simp only [chatStreamGo, if_neg hfin] at hc
          rcases List.mem_cons.mp hc with h | h
          · subst h
            by_cases htc : choice.finishReason = "tool_calls"
            · exact ⟨rfl, htc⟩
            · simp only [if_neg htc] at hne
              exact absurd rfl hne
          · simp at h

/-- C9: on the accumulator's channel, the completed-tool-calls list is
non-empty only on a terminal chunk whose finish reason is the tool-calls
reason (`tool_calls` in the provider's spelling); every other chunk —
non-terminal or with any other finish reason — has an empty list. -/
theorem completed_toolcalls_only_on_toolcalls_finish (events : List ProviderEvent)
    (c : StreamChunk) (hc : c ∈ ChatStreamWithTools events) (hne : c.toolCalls ≠ []) :
    c.done = true ∧ c.finishReason = "tool_calls" :=
  chatStreamGo_toolCalls_characterization events [] c hc hne

/-- Witness for C9 at the canonical tool-call turn. -/
theorem completed_toolcalls_only_on_toolcalls_finish_witness :
    (StreamChunk.mk "" [] [expectedC2ToolCall] true "tool_calls" none).done = true ∧
    (StreamChunk.mk "" [] [expectedC2ToolCall] true "tool_calls" none).finishReason
      = "tool_calls" :=
  completed_toolcalls_only_on_toolcalls_finish evsC2
    (StreamChunk.mk "" [] [expectedC2ToolCall] true "tool_calls" none)
    (by decide) (by decide)

/-- Appending to a non-empty list keeps its last element. -/
theorem getLast?_cons_of_getLast? {α : Type} (a x : α) (l : List α)
    (h : l.getLast? = some x) : (a :: l).getLast? = some x := by
  cases l with
  | nil => simp at h
  | cons b l => rw [List.getLast?_cons_cons]; exact h

/-- After any run of non-terminal events, an EOF event makes the accumulator
loop emit the EOF terminal chunk last, from any accumulator map state. -/
theorem chatStreamGo_eof_terminal :
    ∀ (evs : List ProviderEvent) (m : AccMap) (tail : List ProviderEvent),
      (∀ e ∈ evs, nonTerminalEvent e = true) →
      (chatStreamGo m (evs ++ .eof :: tail)).getLast? = some eofChunk := by
  intro evs
  induction evs with
  | nil => intro m tail _; rfl
  | cons e rest ih =>
    intro m tail h
    have he := h e (List.mem_cons_self e rest)
    have hrest : ∀ x ∈ rest, nonTerminalEvent x = true :=
      fun x hx => h x (List.mem_cons_of_mem e hx)
    cases e with
    | eof => simp [nonTerminalEvent] at he
    | recvError => simp [nonTerminalEvent] at he
    | response choices usage =>
      cases choices with
      | nil =>
        simpa only [List.cons_append, chatStreamGo] using ih m tail hrest
      | cons choice more =>
        have hfin : choice.finishReason = "" := by
          simpa [nonTerminalEvent] using he
        simp only [List.cons_append, chatStreamGo, hfin, if_pos, if_true]
        exact getLast?_cons_of_getLast? _ _ _
          (ih (processRawToolCalls m choice.toolCalls).1 tail hrest)

/-- C10: when the provider stream reaches EOF before any explicit finish
reason, the accumulator emits a terminal chunk with finish reason `stop`, no
usage and no completed tool calls — and the EOF branch does so from every
accumulator map state, including maps holding partially assembled entries. -/
theorem eof_before_finish_yields_stop (evs tail : List ProviderEvent)
    (h : ∀ e ∈ evs, nonTerminalEvent e = true) :
    (ChatStreamWithTools (evs ++ .eof :: tail)).getLast? = some eofChunk ∧
    eofChunk.done = true ∧ eofChunk.finishReason = "stop" ∧
    eofChunk.usage = none ∧ eofChunk.toolCalls = [] ∧
    (∀ (m : AccMap) (tail2 : List ProviderEvent),
      chatStreamGo m (.eof :: tail2) = [eofChunk]) :=
  ⟨chatStreamGo_eof_terminal evs [] tail h, rfl, rfl, rfl, rfl, fun _ _ => rfl⟩

/-- Witness for C10: one non-terminal event leaving a partially assembled
accumulator entry, then EOF. -/
theorem eof_before_finish_yields_stop_witness :
    (ChatStreamWithTools (evsC10Prefix ++ .eof :: [])).getLast? = some eofChunk ∧
    eofChunk.done = true ∧ eofChunk.finishReason = "stop" ∧
    eofChunk.usage = none ∧ eofChunk.toolCalls = [] ∧
    (∀ (m : AccMap) (tail2 : List ProviderEvent),
      chatStreamGo m (.eof :: tail2) = [eofChunk]) :=
  eof_before_finish_yields_stop evsC10Prefix [] (by decide)

/-- C4 counterexample: on a sink whose first write fails, the orchestrator
returns before persisting anything and before the annotation — the very
first part write fails and both effects are skipped, refuting "on every
execution path ... persists ... and writes the annotation part". -/
theorem write_failure_skips_persist_and_annotate :
    (SendMessageStream env0 (mkWriterState brokenSink) "m1" "u1" [eofChunk]).savedContent
      = none ∧
    (SendMessageStream env0 (mkWriterState brokenSink) "m1" "u1" [eofChunk]).annotationAttempted
      = false ∧
    (SendMessageStream env0 (mkWriterState brokenSink) "m1" "u1" [eofChunk]).st.attempts.length
      = 1 := by
  decide

/-- C4 amended: on every turn on which no Part Encoder write fails before or
during the chunk loop, the orchestrator persists the accumulated text buffer
and attempts the annotation write; a write failure instead returns
immediately, skipping both. -/
theorem completion_persists_and_annotates (env : OrchEnv) (st0 : WriterState)
    (m u : String) (chunks : List StreamChunk) (st1 st2 : WriterState) (content : String)
    (h1 : WriteStart st0 m = (.ok (), st1))
    (h2 : streamLoop env st1 [] "" chunks = .ok (st2, content)) :
    (SendMessageStream env st0 m u chunks).savedContent = some content ∧
    (SendMessageStream env st0 m u chunks).annotationAttempted = true := by
  simp [SendMessageStream, h1, h2]

/-- Witness for the amended C4 on an empty chunk stream over a working sink. -/
theorem completion_persists_and_annotates_witness :
    (SendMessageStream env0 (mkWriterState perfectSink) "m1" "u1" []).savedContent
      = some "" ∧
    (SendMessageStream env0 (mkWriterState perfectSink) "m1" "u1" []).annotationAttempted
      = true :=
  completion_persists_and_annotates env0 (mkWriterState perfectSink) "m1" "u1" []
    (WriteStart (mkWriterState perfectSink) "m1").2
    (WriteStart (mkWriterState perfectSink) "m1").2 "" rfl rfl

/-- C1: evaluated on the canonical streamed tool call (id and name in the
first fragment, argument fragments arriving in later deltas that carry an
empty id), the orchestrator writes the start part `b` but then aborts the
whole stream at the first argument fragment: `WriteToolCallArgDelta` is
called with the delta's own empty id, fails with the empty-id error, and the
handler returns — no argument-delta part `c` is ever written, and neither
persistence nor the annotation is reached. -/
theorem argdelta_with_empty_id_aborts_stream :
    (SendMessageStream env0 (mkWriterState perfectSink) "m1" "u1"
        (ChatStreamWithTools evsC1)).st.parts.map Prod.fst
      = [PartTypeStart, PartTypeToolCallStart] ∧
    (SendMessageStream env0 (mkWriterState perfectSink) "m1" "u1"
        (ChatStreamWithTools evsC1)).savedContent = none ∧
    (SendMessageStream env0 (mkWriterState perfectSink) "m1" "u1"
        (ChatStreamWithTools evsC1)).annotationAttempted = false := by
  decide

/-- C3: processing a terminal chunk on a working sink emits a finish-step
part whose `isContinued` flag is set exactly when the mapped finish reason is
`tool-calls`, immediately followed by exactly one finish-message part when
the mapped reason is anything else — and by nothing when it is `tool-calls`. -/
theorem finish_step_and_finish_message (st : WriterState) (chunk : StreamChunk)
    (_hdone : chunk.done = true)
    (hsink : ∀ i len, st.sink.resp i len = (len, false)) :
    ∃ st', handleDoneChunk st chunk = .ok st' ∧
      st'.parts = st.parts ++
        (if mapFinishReason chunk.finishReason = FinishReasonToolCalls then
           [(PartTypeFinishStep,
             finishStepPayload (mapFinishReason chunk.finishReason)
               (convUsage chunk.usage) true)]
         else
           [(PartTypeFinishStep,
             finishStepPayload (mapFinishReason chunk.finishReason)
               (convUsage chunk.usage) false),
            (PartTypeFinishMessage,
             finishMessagePayload (mapFinishReason chunk.finishReason)
               (convUsage chunk.usage))]) := by
  by_cases htc : mapFinishReason chunk.finishReason = FinishReasonToolCalls
  · simp only [handleDoneChunk, WriteFinishStep, writePart, writeRaw, hsink, htc]
    simp
  · simp only [handleDoneChunk, WriteFinishStep, WriteFinishMessage, writePart,
      writeRaw, hsink, htc]
    simp [hsink, htc]

/-- Witness for C3 at a `stop` terminal chunk on a fresh working sink. -/
theorem finish_step_and_finish_message_witness :
    ∃ st', handleDoneChunk (mkWriterState perfectSink) eofChunk = .ok st' ∧
      st'.parts = (mkWriterState perfectSink).parts ++
        (if mapFinishReason eofChunk.finishReason = FinishReasonToolCalls then
           [(PartTypeFinishStep,
             finishStepPayload (mapFinishReason eofChunk.finishReason)
               (convUsage eofChunk.usage) true)]
         else
           [(PartTypeFinishStep,
             finishStepPayload (mapFinishReason eofChunk.finishReason)
               (convUsage eofChunk.usage) false),
            (PartTypeFinishMessage,
             finishMessagePayload (mapFinishReason eofChunk.finishReason)
               (convUsage eofChunk.usage))]) :=
  finish_step_and_finish_message (mkWriterState perfectSink) eofChunk rfl
    (fun _ _ => rfl)

/-- AllOk trivially weakens to the all-but-last property. -/
theorem allOk_allButLastOk (st : WriterState) (h : AllOk st) : AllButLastOk st :=
  fun i hi => h i (by omega)

theorem fullOkAt_snoc (sink : Sink) (attempts : List String) (data : String) (i : Nat)
    (hi : i < attempts.length) (h : fullOkAt sink attempts i) :
    fullOkAt sink (attempts ++ [data]) i := by
  unfold fullOkAt at *
  rw [List.getD_append _ _ _ _ hi]
  exact h

theorem getD_concat (l : List String) (x : String) : (l ++ [x]).getD l.length "" = x := by
  rw [List.getD_append_right _ _ _ _ (Nat.le_refl _)]
  simp

theorem writeRaw_snd (st : WriterState) (data : String) :
    (writeRaw st data).2 =
      { st with
        attempts := st.attempts ++ [data],
        out := st.out ++ data.data.take ((st.sink.resp st.attempts.length data.length).1) } := by
  unfold writeRaw
  dsimp only
  split
  · rfl
  · split <;> rfl

theorem writeRaw_ok_iff (st : WriterState) (data : String) :
    ((writeRaw st data).1 = .ok ()) ↔
      st.sink.resp st.attempts.length data.length = (data.length, false) := by
  unfold writeRaw
  rcases hr : st.sink.resp st.attempts.length data.length with ⟨n, b⟩
  simp only [hr]
  cases b
  · by_cases hn : n = data.length
    · subst hn; simp
    · simp [hn]
  · simp

theorem writeRaw_shortWrite (st : WriterState) (data : String) (n : Nat)
    (hr : st.sink.resp st.attempts.length data.length = (n, false))
    (hn : n ≠ data.length) :
    (writeRaw st data).1 = .error (.partialWrite n data.length) := by
  unfold writeRaw
  rw [hr]
  simp [hn]

theorem writeRaw_allOk (st : WriterState) (data : String) (h : AllOk st) :
    (∀ u st', writeRaw st data = (.ok u, st') → AllOk st') ∧
    (∀ e st', writeRaw st data = (.error e, st') → AllButLastOk st') := by
  constructor
  · intro u st' heq
    have h2 : st' = (writeRaw st data).2 := by rw [heq]
    have h1 : (writeRaw st data).1 = .ok () := by rw [heq]
    have hr := (writeRaw_ok_iff st data).mp h1
    subst h2
    rw [writeRaw_snd]
    intro i hi
    simp only [List.length_append, List.length_singleton] at hi
    by_cases hlt : i < st.attempts.length
    · exact fullOkAt_snoc _ _ _ _ hlt (h i hlt)
    · have hieq : i = st.attempts.length := by omega
      subst hieq
      unfold fullOkAt
      rw [getD_concat]
      exact hr
  · intro e st' heq
    have h2 : st' = (writeRaw st data).2 := by rw [heq]
    subst h2
    rw [writeRaw_snd]
    intro i hi
    simp only [List.length_append, List.length_singleton] at hi
    exact fullOkAt_snoc _ _ _ _ (by omega) (h i (by omega))

theorem writePart_allOk (st : WriterState) (tag : String) (payload : Json) (h : AllOk st) :
    (∀ u st', writePart st tag payload = (.ok u, st') → AllOk st') ∧
    (∀ e st', writePart st tag payload = (.error e, st') → AllButLastOk st') := by
  have hw := writeRaw_allOk st (tag ++ ":" ++ payload.render ++ "\n") h
  constructor
  · intro u st' heq
    unfold writePart at heq
    rcases hww : writeRaw st (tag ++ ":" ++ payload.render ++ "\n") with ⟨r, stW⟩
    rw [hww] at heq
    cases r with
    | ok v =>
      have hA := hw.1 v stW hww
      simp only [Prod.mk.injEq] at heq
      rw [← heq.2]
      intro i hi
      exact hA i hi
    | error e2 => simp at heq
  · intro e st' heq
    unfold writePart at heq
    rcases hww : writeRaw st (tag ++ ":" ++ payload.render ++ "\n") with ⟨r, stW⟩
    rw [hww] at heq
    cases r with
    | ok v => simp at heq
    | error e2 =>
      simp only [Prod.mk.injEq, Except.error.injEq] at heq
      rw [← heq.2]
      exact hw.2 e2 stW hww

theorem WriteStart_allOk (st : WriterState) (mid : String) (h : AllOk st) :
    (∀ u st', WriteStart st mid = (.ok u, st') → AllOk st') ∧
    (∀ e st', WriteStart st mid = (.error e, st') → AllButLastOk st') := by
  unfold WriteStart
  split_ifs with hc
  · constructor
    · intro u st' heq; simp at heq
    · intro e st' heq
      simp only [Prod.mk.injEq, Except.error.injEq] at heq
      rw [← heq.2]
      exact allOk_allButLastOk st h
  · exact writePart_allOk st PartTypeStart _ h

theorem WriteText_allOk (st : WriterState) (text : String) (h : AllOk st) :
    (∀ u st', WriteText st text = (.ok u, st') → AllOk st') ∧
    (∀ e st', WriteText st text = (.error e, st') → AllButLastOk st') := by
  unfold WriteText
  exact writePart_allOk st PartTypeText _ h

theorem WriteAnnotation_allOk (st : WriterState) (value : Json) (h : AllOk st) :
    (∀ u st', WriteAnnotation st value = (.ok u, st') → AllOk st') ∧
    (∀ e st', WriteAnnotation st value = (.error e, st') → AllButLastOk st') := by
  unfold WriteAnnotation
  exact writePart_allOk st PartTypeAnnotation _ h

theorem WriteFinishStep_allOk (st : WriterState) (reason : String) (usage : Option Usage)
    (isContinued : Bool) (h : AllOk st) :
    (∀ u st', WriteFinishStep st reason usage isContinued = (.ok u, st') → AllOk st') ∧
    (∀ e st', WriteFinishStep st reason usage isContinued = (.error e, st') → AllButLastOk st') := by
  unfold WriteFinishStep
  exact writePart_allOk st PartTypeFinishStep _ h

theorem WriteFinishMessage_allOk (st : WriterState) (reason : String) (usage : Option Usage)
    (h : AllOk st) :
    (∀ u st', WriteFinishMessage st reason usage = (.ok u, st') → AllOk st') ∧
    (∀ e st', WriteFinishMessage st reason usage = (.error e, st') → AllButLastOk st') := by
  unfold WriteFinishMessage
  exact writePart_allOk st PartTypeFinishMessage _ h

theorem WriteToolCallStart_allOk (st : WriterState) (id name : String) (h : AllOk st) :
    (∀ u st', WriteToolCallStart st id name = (.ok u, st') → AllOk st') ∧
    (∀ e st', WriteToolCallStart st id name = (.error e, st') → AllButLastOk st') := by
  unfold WriteToolCallStart
  split_ifs with hc1 hc2
  · constructor
    · intro u st' heq; simp at heq
    · intro e st' heq
      simp only [Prod.mk.injEq, Except.error.injEq] at heq
      rw [← heq.2]
      exact allOk_allButLastOk st h
  · constructor
    · intro u st' heq; simp at heq
    · intro e st' heq
      simp only [Prod.mk.injEq, Except.error.injEq] at heq
      rw [← heq.2]
      exact allOk_allButLastOk st h
  · exact writePart_allOk st PartTypeToolCallStart _ h

theorem WriteToolCallArgDelta_allOk (st : WriterState) (id argsDelta : String) (h : AllOk st) :
    (∀ u st', WriteToolCallArgDelta st id argsDelta = (.ok u, st') → AllOk st') ∧
    (∀ e st', WriteToolCallArgDelta st id argsDelta = (.error e, st') → AllButLastOk st') := by
  unfold WriteToolCallArgDelta
  split_ifs with hc
  · constructor
    · intro u st' heq; simp at heq
    · intro e st' heq
      simp only [Prod.mk.injEq, Except.error.injEq] at heq
      rw [← heq.2]
      exact allOk_allButLastOk st h
  · exact writePart_allOk st PartTypeToolCallArgDelta _ h

theorem WriteToolCall_allOk (st : WriterState) (id name : String) (args : Json) (h : AllOk st) :
    (∀ u st', WriteToolCall st id name args = (.ok u, st') → AllOk st') ∧
    (∀ e st', WriteToolCall st id name args = (.error e, st') → AllButLastOk st') := by
  unfold WriteToolCall
  split_ifs with hc1 hc2
  · constructor
    · intro u st' heq; simp at heq
    · intro e st' heq
      simp only [Prod.mk.injEq, Except.error.injEq] at heq
      rw [← heq.2]
      exact allOk_allButLastOk st h
  · constructor
    · intro u st' heq; simp at heq
    · intro e st' heq
      simp only [Prod.mk.injEq, Except.error.injEq] at heq
      rw [← heq.2]
      exact allOk_allButLastOk st h
  · exact writePart_allOk st PartTypeToolCall _ h

theorem WriteToolResult_allOk (st : WriterState) (id : String) (result : Json) (h : AllOk st) :
    (∀ u st', WriteToolResult st id result = (.ok u, st') → AllOk st') ∧
    (∀ e st', WriteToolResult st id result = (.error e, st') → AllButLastOk st') := by
  unfold WriteToolResult
  split_ifs with hc
  · constructor
    · intro u st' heq; simp at heq
    · intro e st' heq
      simp only [Prod.mk.injEq, Except.error.injEq] at heq
      rw [← heq.2]
      exact allOk_allButLastOk st h
  · exact writePart_allOk st PartTypeToolResult _ h

theorem processToolCallDeltas_cons (st : WriterState) (streamed : List Int)
    (d : ToolCallDelta) (rest : List ToolCallDelta) :
    processToolCallDeltas st streamed (d :: rest) =
      (match (if d.id ≠ "" ∧ d.name ≠ "" ∧ ¬ streamed.contains d.index then
          match WriteToolCallStart st d.id d.name with
          | (.error _, stE) => Except.error stE
          | (.ok _, st1) => Except.ok (st1, d.index :: streamed)
        else Except.ok (st, streamed)) with
      | .error stE => Except.error stE
      | .ok (st1, streamed1) =>
        if d.argDelta ≠ "" then
          match WriteToolCallArgDelta st1 d.id d.argDelta with
          | (.error _, stE) => Except.error stE
          | (.ok _, st2) => processToolCallDeltas st2 streamed1 rest
        else processToolCallDeltas st1 streamed1 rest) := rfl

theorem processToolCallDeltas_allOk :
    ∀ (ds : List ToolCallDelta) (st : WriterState) (streamed : List Int), AllOk st →
      (∀ st' s', processToolCallDeltas st streamed ds = .ok (st', s') → AllOk st') ∧
      (∀ stE, processToolCallDeltas st streamed ds = .error stE → AllButLastOk stE) := by
  intro ds
  induction ds with
  | nil =>
    intro st streamed h
    constructor
    · intro st' s' heq
      simp only [processToolCallDeltas, Except.ok.injEq, Prod.mk.injEq] at heq
      rw [← heq.1]
      exact h
    · intro stE heq
      simp [processToolCallDeltas] at heq
  | cons d rest ih =>
    intro st streamed h
    by_cases hcond : d.id ≠ "" ∧ d.name ≠ "" ∧ ¬ streamed.contains d.index
    · rcases hW : WriteToolCallStart st d.id d.name with ⟨r1, stA⟩
      cases r1 with
      | error e1 =>
        have hred : processToolCallDeltas st streamed (d :: rest) = .error stA := by
          rw [processToolCallDeltas_cons, if_pos hcond, hW]
        have hB := (WriteToolCallStart_allOk st d.id d.name h).2 e1 stA hW
        constructor
        · intro st' s' heq; rw [hred] at heq; simp at heq
        · intro stE heq; rw [hred] at heq; cases heq; exact hB
      | ok u1 =>
        have hA : AllOk stA := (WriteToolCallStart_allOk st d.id d.name h).1 u1 stA hW
        have hred0 : processToolCallDeltas st streamed (d :: rest) =
            (if d.argDelta ≠ "" then
              match WriteToolCallArgDelta stA d.id d.argDelta with
              | (.error _, stE) => Except.error stE
              | (.ok _, st2) => processToolCallDeltas st2 (d.index :: streamed) rest
            else processToolCallDeltas stA (d.index :: streamed) rest) := by
          rw [processToolCallDeltas_cons, if_pos hcond, hW]
        by_cases harg : d.argDelta ≠ ""
        · rcases hW2 : WriteToolCallArgDelta stA d.id d.argDelta with ⟨r2, stB⟩
          cases r2 with
          | error e2 =>
            have hred : processToolCallDeltas st streamed (d :: rest) = .error stB := by
              rw [hred0, if_pos harg, hW2]
            have hB := (WriteToolCallArgDelta_allOk stA d.id d.argDelta hA).2 e2 stB hW2
            constructor
            · intro st' s' heq; rw [hred] at heq; simp at heq
            · intro stE heq; rw [hred] at heq; cases heq; exact hB
          | ok u2 =>
            have hB : AllOk stB := (WriteToolCallArgDelta_allOk stA d.id d.argDelta hA).1 u2 stB hW2
            have hred : processToolCallDeltas st streamed (d :: rest)
                = processToolCallDeltas stB (d.index :: streamed) rest := by
              rw [hred0, if_pos harg, hW2]
            constructor
            · intro st' s' heq; rw [hred] at heq; exact (ih stB _ hB).1 st' s' heq
            · intro stE heq; rw [hred] at heq; exact (ih stB _ hB).2 stE heq
        · have hred : processToolCallDeltas st streamed (d :: rest)
              = processToolCallDeltas stA (d.index :: streamed) rest := by
            rw [hred0, if_neg harg]
          constructor
          · intro st' s' heq; rw [hred] at heq; exact (ih stA _ hA).1 st' s' heq
          · intro stE heq; rw [hred] at heq; exact (ih stA _ hA).2 stE heq
    · have hred0 : processToolCallDeltas st streamed (d :: rest) =
          (if d.argDelta ≠ "" then
            match WriteToolCallArgDelta st d.id d.argDelta with
            | (.error _, stE) => Except.error stE
            | (.ok _, st2) => processToolCallDeltas st2 streamed rest
          else processToolCallDeltas st streamed rest) := by
        rw [processToolCallDeltas_cons, if_neg hcond]
      by_cases harg : d.argDelta ≠ ""
      · rcases hW2 : WriteToolCallArgDelta st d.id d.argDelta with ⟨r2, stB⟩
        cases r2 with
        | error e2 =>
          have hred : processToolCallDeltas st streamed (d :: rest) = .error stB := by
            rw [hred0, if_pos harg, hW2]
          have hB := (WriteToolCallArgDelta_allOk st d.id d.argDelta h).2 e2 stB hW2
          constructor
          · intro st' s' heq; rw [hred] at heq; simp at heq
          · intro stE heq; rw [hred] at heq; cases heq; exact hB
        | ok u2 =>
          have hB : AllOk stB := (WriteToolCallArgDelta_allOk st d.id d.argDelta h).1 u2 stB hW2
          have hred : processToolCallDeltas st streamed (d :: rest)
              = processToolCallDeltas stB streamed rest := by
            rw [hred0, if_pos harg, hW2]
          constructor
          · intro st' s' heq; rw [hred] at heq; exact (ih stB _ hB).1 st' s' heq
          · intro stE heq; rw [hred] at heq; exact (ih stB _ hB).2 stE heq
      · have hred : processToolCallDeltas st streamed (d :: rest)
            = processToolCallDeltas st streamed rest := by
          rw [hred0, if_neg harg]
        constructor
        · intro st' s' heq; rw [hred] at heq; exact (ih st _ h).1 st' s' heq
        · intro stE heq; rw [hred] at heq; exact (ih st _ h).2 stE heq

theorem processCompletedToolCalls_cons (env : OrchEnv) (st : WriterState)
    (tc : SvcToolCall) (rest : List SvcToolCall) :
    processCompletedToolCalls env st (tc :: rest) =
      (match WriteToolCall st tc.id tc.name
          (match env.unmarshal tc.arguments with
           | some v => v
           | none => .str tc.arguments) with
      | (.error _, stE) => Except.error stE
      | (.ok _, st1) =>
        match env.execTool tc with
        | .error msg =>
          match WriteToolResult st1 tc.id
              (.obj [("error", .str ("Failed to execute tool: " ++ msg)),
                     ("success", .bool false)]) with
          | (.error _, stE) => Except.error stE
          | (.ok _, st2) => processCompletedToolCalls env st2 rest
        | .ok res =>
          match WriteToolResult st1 tc.id (toolExecutionResultJson res) with
          | (.error _, stE) => Except.error stE
          | (.ok _, st2) => processCompletedToolCalls env st2 rest) := rfl

theorem processCompletedToolCalls_allOk (env : OrchEnv) :
    ∀ (tcs : List SvcToolCall) (st : WriterState), AllOk st →
      (∀ st', processCompletedToolCalls env st tcs = .ok st' → AllOk st') ∧
      (∀ stE, processCompletedToolCalls env st tcs = .error stE → AllButLastOk stE) := by
  intro tcs
  induction tcs with
  | nil =>
    intro st h
    constructor
    · intro st' heq
      simp only [processCompletedToolCalls, Except.ok.injEq] at heq
      rw [← heq]
      exact h
    · intro stE heq
      simp [processCompletedToolCalls] at heq
  | cons tc rest ih =>
    intro st h
    rcases hW : WriteToolCall st tc.id tc.name
        (match env.unmarshal tc.arguments with
         | some v => v
         | none => .str tc.arguments) with ⟨r1, stA⟩
    cases r1 with
    | error e1 =>
      have hred : processCompletedToolCalls env st (tc :: rest) = .error stA := by
        rw [processCompletedToolCalls_cons, hW]
      have hB := (WriteToolCall_allOk st tc.id tc.name _ h).2 e1 stA hW
      constructor
      · intro st' heq; rw [hred] at heq; simp at heq
      · intro stE heq; rw [hred] at heq; cases heq; exact hB
    | ok u1 =>
      have hA : AllOk stA := (WriteToolCall_allOk st tc.id tc.name _ h).1 u1 stA hW
      rcases hE : env.execTool tc with msg | res
      · rcases hW2 : WriteToolResult stA tc.id
            (.obj [("error", .str ("Failed to execute tool: " ++ msg)),
                   ("success", .bool false)]) with ⟨r2, stB⟩
        cases r2 with
        | error e2 =>
          have hred : processCompletedToolCalls env st (tc :: rest) = .error stB := by
            rw [processCompletedToolCalls_cons, hW]; dsimp only; rw [hE]; dsimp only; rw [hW2]
          have hB := (WriteToolResult_allOk stA tc.id _ hA).2 e2 stB hW2
          constructor
          · intro st' heq; rw [hred] at heq; simp at heq
          · intro stE heq; rw [hred] at heq; cases heq; exact hB
        | ok u2 =>
          have hB : AllOk stB := (WriteToolResult_allOk stA tc.id _ hA).1 u2 stB hW2
          have hred : processCompletedToolCalls env st (tc :: rest)
              = processCompletedToolCalls env stB rest := by
            rw [processCompletedToolCalls_cons, hW]; dsimp only; rw [hE]; dsimp only; rw [hW2]
          constructor
          · intro st' heq; rw [hred] at heq; exact (ih stB hB).1 st' heq
          · intro stE heq; rw [hred] at heq; exact (ih stB hB).2 stE heq
      · rcases hW2 : WriteToolResult stA tc.id (toolExecutionResultJson res) with ⟨r2, stB⟩
        cases r2 with
        | error e2 =>
          have hred : processCompletedToolCalls env st (tc :: rest) = .error stB := by
            rw [processCompletedToolCalls_cons, hW]; dsimp only; rw [hE]; dsimp only; rw [hW2]
          have hB := (WriteToolResult_allOk stA tc.id _ hA).2 e2 stB hW2
          constructor
          · intro st' heq; rw [hred] at heq; simp at heq
          · intro stE heq; rw [hred] at heq; cases heq; exact hB
        | ok u2 =>
          have hB : AllOk stB := (WriteToolResult_allOk stA tc.id _ hA).1 u2 stB hW2
          have hred : processCompletedToolCalls env st (tc :: rest)
              = processCompletedToolCalls env stB rest := by
            rw [processCompletedToolCalls_cons, hW]; dsimp only; rw [hE]; dsimp only; rw [hW2]
          constructor
          · intro st' heq; rw [hred] at heq; exact (ih stB hB).1 st' heq
          · intro stE heq; rw [hred] at heq; exact (ih stB hB).2 stE heq

theorem handleDoneChunk_allOk (st : WriterState) (chunk : StreamChunk) (h : AllOk st) :
    (∀ st', handleDoneChunk st chunk = .ok st' → AllOk st') ∧
    (∀ stE, handleDoneChunk st chunk = .error stE → AllButLastOk stE) := by
  unfold handleDoneChunk
  dsimp only
  rcases hW : WriteFinishStep st (mapFinishReason chunk.finishReason)
      (convUsage chunk.usage)
      (mapFinishReason chunk.finishReason = FinishReasonToolCalls) with ⟨r1, stA⟩
  cases r1 with
  | error e1 =>
    dsimp only
    have hB := (WriteFinishStep_allOk st _ _ _ h).2 e1 stA hW
    constructor
    · intro st' heq; simp at heq
    · intro stE heq; cases heq; exact hB
  | ok u1 =>
    dsimp only
    have hA : AllOk stA := (WriteFinishStep_allOk st _ _ _ h).1 u1 stA hW
    by_cases hc : (decide (mapFinishReason chunk.finishReason = FinishReasonToolCalls)) = true
    · rw [if_pos hc]
      constructor
      · intro st' heq; cases heq; exact hA
      · intro stE heq; simp at heq
    · rw [if_neg hc]
      rcases hW2 : WriteFinishMessage stA (mapFinishReason chunk.finishReason)
          (convUsage chunk.usage) with ⟨r2, stB⟩
      cases r2 with
      | error e2 =>
        dsimp only
        have hB := (WriteFinishMessage_allOk stA _ _ hA).2 e2 stB hW2
        constructor
        · intro st' heq; simp at heq
        · intro stE heq; cases heq; exact hB
      | ok u2 =>
        dsimp only
        have hB : AllOk stB := (WriteFinishMessage_allOk stA _ _ hA).1 u2 stB hW2
        constructor
        · intro st' heq; cases heq; exact hB
        · intro stE heq; simp at heq

theorem streamLoop_cons (env : OrchEnv) (st : WriterState) (streamed : List Int)
    (fullContent : String) (chunk : StreamChunk) (rest : List StreamChunk) :
    streamLoop env st streamed fullContent (chunk :: rest) =
      (match (if chunk.content ≠ "" then
          match WriteText st chunk.content with
          | (.error _, stE) => Except.error stE
          | (.ok _, st1) => Except.ok (st1, fullContent ++ chunk.content)
        else Except.ok (st, fullContent)) with
      | .error stE => Except.error stE
      | .ok (st1, full1) =>
        match processToolCallDeltas st1 streamed chunk.toolCallDeltas with
        | .error stE => Except.error stE
        | .ok (st2, streamed2) =>
          match processCompletedToolCalls env st2 chunk.toolCalls with
          | .error stE => Except.error stE
          | .ok st3 =>
            if chunk.done then
              match handleDoneChunk st3 chunk with
              | .error stE => Except.error stE
              | .ok st4 => Except.ok (st4, full1)
            else streamLoop env st3 streamed2 full1 rest) := rfl

theorem streamLoop_after_content (env : OrchEnv) (chunk : StreamChunk)
    (rest : List StreamChunk)
    (ihrest : ∀ (st : WriterState) (streamed : List Int) (full : String), AllOk st →
      (∀ st' c', streamLoop env st streamed full rest = .ok (st', c') → AllOk st') ∧
      (∀ stE, streamLoop env st streamed full rest = .error stE → AllButLastOk stE))
    (st1 : WriterState) (streamed : List Int) (full1 : String) (hA1 : AllOk st1) :
    (∀ st' c',
      (match processToolCallDeltas st1 streamed chunk.toolCallDeltas with
       | .error stE => Except.error stE
       | .ok (st2, streamed2) =>
         match processCompletedToolCalls env st2 chunk.toolCalls with
         | .error stE => Except.error stE
         | .ok st3 =>
           if chunk.done then
             match handleDoneChunk st3 chunk with
             | .error stE => Except.error stE
             | .ok st4 => Except.ok (st4, full1)
           else streamLoop env st3 streamed2 full1 rest) = .ok (st', c') → AllOk st') ∧
    (∀ stE,
      (match processToolCallDeltas st1 streamed chunk.toolCallDeltas with
       | .error stE => Except.error stE
       | .ok (st2, streamed2) =>
         match processCompletedToolCalls env st2 chunk.toolCalls with
         | .error stE => Except.error stE
         | .ok st3 =>
           if chunk.done then
             match handleDoneChunk st3 chunk with
             | .error stE => Except.error stE
             | .ok st4 => Except.ok (st4, full1)
           else streamLoop env st3 streamed2 full1 rest) = .error stE → AllButLastOk stE) := by
  rcases hD : processToolCallDeltas st1 streamed chunk.toolCallDeltas with stE1 | ⟨st2, streamed2⟩
  · have hB := (processToolCallDeltas_allOk chunk.toolCallDeltas st1 streamed hA1).2 stE1 hD
    constructor
    · intro st' c' heq; simp at heq
    · intro stE heq
      have : stE1 = stE := by simpa using heq
      rw [← this]
      exact hB
  · have hA2 : AllOk st2 :=
      (processToolCallDeltas_allOk chunk.toolCallDeltas st1 streamed hA1).1 st2 streamed2 hD
    dsimp only
    cases hC : processCompletedToolCalls env st2 chunk.toolCalls with
    | error stE2 =>
      have hB := (processCompletedToolCalls_allOk env chunk.toolCalls st2 hA2).2 stE2 hC
      constructor
      · intro st' c' heq; simp at heq
      · intro stE heq
        have : stE2 = stE := by simpa using heq
        rw [← this]
        exact hB
    | ok st3 =>
      have hA3 : AllOk st3 :=
        (processCompletedToolCalls_allOk env chunk.toolCalls st2 hA2).1 st3 hC
      dsimp only
      cases hdone : chunk.done with
      | true =>
        cases hH : handleDoneChunk st3 chunk with
        | error stE3 =>
          have hB := (handleDoneChunk_allOk st3 chunk hA3).2 stE3 hH
          constructor
          · intro st' c' heq; simp at heq
          · intro stE heq
            have : stE3 = stE := by simpa using heq
            rw [← this]
            exact hB
        | ok st4 =>
          have hA4 : AllOk st4 := (handleDoneChunk_allOk st3 chunk hA3).1 st4 hH
          dsimp only
          constructor
          · intro st' c' heq
            have : st4 = st' := by
              have h2 := heq
              simp at h2
              exact h2.1
            rw [← this]
            exact hA4
          · intro stE heq; simp at heq
      | false =>
        exact ihrest st3 streamed2 full1 hA3

theorem streamLoop_allOk (env : OrchEnv) :
    ∀ (chunks : List StreamChunk) (st : WriterState) (streamed : List Int) (full : String),
      AllOk st →
      (∀ st' c', streamLoop env st streamed full chunks = .ok (st', c') → AllOk st') ∧
      (∀ stE, streamLoop env st streamed full chunks = .error stE → AllButLastOk stE) := by
  intro chunks
  induction chunks with
  | nil =>
    intro st streamed full h
    constructor
    · intro st' c' heq
      simp only [streamLoop, Except.ok.injEq, Prod.mk.injEq] at heq
      rw [← heq.1]
      exact h
    · intro stE heq
      simp [streamLoop] at heq
  | cons chunk rest ih =>
    intro st streamed full h
    by_cases hcont : chunk.content ≠ ""
    · rcases hT : WriteText st chunk.content with ⟨rT, stT⟩
      cases rT with
      | error eT =>
        have hred : streamLoop env st streamed full (chunk :: rest) = .error stT := by
          rw [streamLoop_cons, if_pos hcont, hT]
        have hB := (WriteText_allOk st chunk.content h).2 eT stT hT
        constructor
        · intro st' c' heq; rw [hred] at heq; simp at heq
        · intro stE heq; rw [hred] at heq; cases heq; exact hB
      | ok uT =>
        have hA1 : AllOk stT := (WriteText_allOk st chunk.content h).1 uT stT hT
        have hred : streamLoop env st streamed full (chunk :: rest) =
            (match processToolCallDeltas stT streamed chunk.toolCallDeltas with
             | .error stE => Except.error stE
             | .ok (st2, streamed2) =>
               match processCompletedToolCalls env st2 chunk.toolCalls with
               | .error stE => Except.error stE
               | .ok st3 =>
                 if chunk.done then
                   match handleDoneChunk st3 chunk with
                   | .error stE => Except.error stE
                   | .ok st4 => Except.ok (st4, full ++ chunk.content)
                 else streamLoop env st3 streamed2 (full ++ chunk.content) rest) := by
          rw [streamLoop_cons, if_pos hcont, hT]
        have hrest := streamLoop_after_content env chunk rest ih stT streamed
          (full ++ chunk.content) hA1
        constructor
        · intro st' c' heq; rw [hred] at heq; exact hrest.1 st' c' heq
        · intro stE heq; rw [hred] at heq; exact hrest.2 stE heq
    · have hred : streamLoop env st streamed full (chunk :: rest) =
          (match processToolCallDeltas st streamed chunk.toolCallDeltas with
           | .error stE => Except.error stE
           | .ok (st2, streamed2) =>
             match processCompletedToolCalls env st2 chunk.toolCalls with
             | .error stE => Except.error stE
             | .ok st3 =>
               if chunk.done then
                 match handleDoneChunk st3 chunk with
                 | .error stE => Except.error stE
                 | .ok st4 => Except.ok (st4, full)
               else streamLoop env st3 streamed2 full rest) := by
        rw [streamLoop_cons, if_neg hcont]
      have hrest := streamLoop_after_content env chunk rest ih st streamed full h
      constructor
      · intro st' c' heq; rw [hred] at heq; exact hrest.1 st' c' heq
      · intro stE heq; rw [hred] at heq; exact hrest.2 stE heq

theorem sendMessageStream_allButLastOk (env : OrchEnv) (sink : Sink)
    (m u : String) (chunks : List StreamChunk) :
    AllButLastOk (SendMessageStream env (mkWriterState sink) m u chunks).st := by
  have h0 : AllOk (mkWriterState sink) := by
    intro i hi
    simp [mkWriterState] at hi
  unfold SendMessageStream
  rcases hW : WriteStart (mkWriterState sink) m with ⟨r, stA⟩
  cases r with
  | error e =>
    dsimp only
    exact (WriteStart_allOk (mkWriterState sink) m h0).2 e stA hW
  | ok uu =>
    dsimp only
    have hA : AllOk stA := (WriteStart_allOk (mkWriterState sink) m h0).1 uu stA hW
    cases hL : streamLoop env stA [] "" chunks with
    | error stE =>
      dsimp only
      exact (streamLoop_allOk env chunks stA [] "" hA).2 stE hL
    | ok pr =>
      rcases pr with ⟨st1, content⟩
      have hA1 : AllOk st1 := (streamLoop_allOk env chunks stA [] "" hA).1 st1 content hL
      dsimp only
      rcases hAn : WriteAnnotation st1
          (.obj [("messageId", .str m), ("userMessageId", .str u)]) with ⟨r2, st2⟩
      cases r2 with
      | error e2 =>
        exact (WriteAnnotation_allOk st1 _ hA1).2 e2 st2 hAn
      | ok u2 =>
        exact allOk_allButLastOk st2 ((WriteAnnotation_allOk st1 _ hA1).1 u2 st2 hAn)


/-- C7: a part write that the sink short-accepts (fewer characters than
requested, no error) returns the partial-write error rather than success,
and on every orchestrated turn every write attempt except possibly the last
was fully accepted by the sink — once any write fails, the orchestrator
attempts no further part writes for that turn. -/
theorem partial_write_is_error_and_halts_turn :
    (∀ (st : WriterState) (data : String) (n : Nat),
        st.sink.resp st.attempts.length data.length = (n, false) → n ≠ data.length →
        (writeRaw st data).1 = .error (.partialWrite n data.length)) ∧
    (∀ (env : OrchEnv) (sink : Sink) (m u : String) (chunks : List StreamChunk) (i : Nat),
        i + 1 < (SendMessageStream env (mkWriterState sink) m u chunks).st.attempts.length →
        fullOkAt (SendMessageStream env (mkWriterState sink) m u chunks).st.sink
          (SendMessageStream env (mkWriterState sink) m u chunks).st.attempts i) :=
  ⟨writeRaw_shortWrite,
   fun env sink m u chunks => sendMessageStream_allButLastOk env sink m u chunks⟩

/-- Witness for C7: a ten-character write on a sink that accepts five
characters surfaces as the partial-write error, and on a completed turn over
a working sink the non-final write attempt was fully accepted. -/
theorem partial_write_is_error_and_halts_turn_witness :
    (writeRaw (mkWriterState shortSink) "0123456789").1 = .error (.partialWrite 5 10) ∧
    fullOkAt (SendMessageStream env0 (mkWriterState perfectSink) "m1" "u1" []).st.sink
      (SendMessageStream env0 (mkWriterState perfectSink) "m1" "u1" []).st.attempts 0 :=
  ⟨partial_write_is_error_and_halts_turn.1 (mkWriterState shortSink) "0123456789" 5
      rfl (by decide),
   partial_write_is_error_and_halts_turn.2 env0 perfectSink "m1" "u1" [] 0 (by decide)⟩

end AgptGo
